import Mathlib

/-!
Shallow embedding of the gravlax lexer (src/src/lexer.rs).

The Rust scanner walks a `Peekable<Chars>` iterator; we model the iterator as
the `List Char` of characters not yet consumed, and every mutable field
(`tokens`, `errors`, `current_location`, local string buffers) as explicit
state threaded through the functions.  A Rust function that can panic
(an `unwrap` on a table lookup or a float parse, or the explicit `panic!`
arm in `consume_comment`) is modelled as returning `Option`, with `none`
standing for the panic.  `u16` line/column counters are modelled as `Nat`
(no claim exercises counter overflow).  `OrderedFloat<f32>` literal values
are modelled as the exact decimal rational of the parsed text; f32 rounding
is not modelled, and every numeric value appearing in a claim is exactly
representable in f32.
-/

/-- Rust `Location { line_number, column_number }` (both `u16`, modelled as `Nat`). -/
structure Location where
  line_number : Nat
  column_number : Nat
deriving DecidableEq

/-- Rust `Location::default()`: both counters start at 0. -/
def Location.start : Location := ⟨0, 0⟩

/-- Rust `Location::advance_col`: `self.column_number += 1`. -/
def Location.advance_col (l : Location) : Location :=
  { l with column_number := l.column_number + 1 }

/-- Rust `Location::advance_row`: `self.column_number = 0; self.line_number += 1`. -/
def Location.advance_row (l : Location) : Location :=
  { l with column_number := 0, line_number := l.line_number + 1 }

/-- Rust `enum LexerError` (single variant `UnexpectedCharacter`). -/
inductive LexerError where
  | UnexpectedCharacter (character : Char) (location : Location)
deriving DecidableEq

/-- Rust `enum SingleCharacterToken`. -/
inductive SingleCharacterToken where
  | LeftParenthesis
  | RightParenthesis
  | LeftBrace
  | RightBrace
  | Comma
  | Dot
  | Minus
  | Plus
  | SemiColon
  | Slash
  | Star
  | Not
  | EqualSign
  | GreaterThan
  | LessThan
deriving DecidableEq

/-- Rust `enum DoubleCharacterToken`. -/
inductive DoubleCharacterToken where
  | NotEqual
  | EqualEqualSign
  | GreaterThanOrEqual
  | LessThanOrEqual
deriving DecidableEq

/-- Rust `enum Literal`.  `Number(OrderedFloat<f32>)` is modelled with the exact
rational value of the parsed decimal text. -/
inductive Literal where
  | Number (value : ℚ)
  | Identifier (value : String)
  | StringLiteral (value : String)
deriving DecidableEq

/-- Rust `enum Keyword`. -/
inductive Keyword where
  | And
  | Class
  | If
  | Else
  | True
  | False
  | Fun
  | For
  | While
  | Var
  | Nil
  | Or
  | Print
  | Return
  | Super
  | This
deriving DecidableEq

/-- Rust `enum Token`. -/
inductive Token where
  | Eof
  | LiteralToken (literal : Literal)
  | KeywordToken (keyword : Keyword)
  | Single (tok : SingleCharacterToken)
  | Double (tok : DoubleCharacterToken)
deriving DecidableEq

/-- Rust `struct TokenStream(Vec<Token>)`. -/
structure TokenStream where
  tokens : List Token
deriving DecidableEq

/-- Rust static `LEXEME_TO_TOKEN_MAPPER` (`phf_map!`), as an association list in
source order.  Keys are distinct, so ordered lookup agrees with the hash map. -/
def LEXEME_TO_TOKEN_MAPPER : List (String × Token) :=
  [ ("and", Token.KeywordToken Keyword.And),
    ("class", Token.KeywordToken Keyword.Class),
    ("if", Token.KeywordToken Keyword.If),
    ("else", Token.KeywordToken Keyword.Else),
    ("true", Token.KeywordToken Keyword.True),
    ("false", Token.KeywordToken Keyword.False),
    ("fun", Token.KeywordToken Keyword.Fun),
    ("for", Token.KeywordToken Keyword.For),
    ("while", Token.KeywordToken Keyword.While),
    ("var", Token.KeywordToken Keyword.Var),
    ("nil", Token.KeywordToken Keyword.Nil),
    ("or", Token.KeywordToken Keyword.Or),
    ("print", Token.KeywordToken Keyword.Print),
    ("return", Token.KeywordToken Keyword.Return),
    ("super", Token.KeywordToken Keyword.Super),
    ("this", Token.KeywordToken Keyword.This),
    ("(", Token.Single SingleCharacterToken.LeftBrace),
    (")", Token.Single SingleCharacterToken.RightBrace),
    ("\x7b", Token.Single SingleCharacterToken.LeftParenthesis),
    ("\x7d", Token.Single SingleCharacterToken.RightParenthesis),
    ("+", Token.Single SingleCharacterToken.Plus),
    ("-", Token.Single SingleCharacterToken.Minus),
    (",", Token.Single SingleCharacterToken.Comma),
    (".", Token.Single SingleCharacterToken.Dot),
    (";", Token.Single SingleCharacterToken.SemiColon),
    ("*", Token.Single SingleCharacterToken.Star),
    ("!", Token.Single SingleCharacterToken.Not),
    ("/", Token.Single SingleCharacterToken.Slash),
    ("!=", Token.Double DoubleCharacterToken.NotEqual),
    ("=", Token.Single SingleCharacterToken.EqualSign),
    ("==", Token.Double DoubleCharacterToken.EqualEqualSign),
    ("<", Token.Single SingleCharacterToken.LessThan),
    ("<=", Token.Double DoubleCharacterToken.LessThanOrEqual),
    (">", Token.Single SingleCharacterToken.GreaterThan),
    (">=", Token.Double DoubleCharacterToken.GreaterThanOrEqual) ]

/-- Rust `LEXEME_TO_TOKEN_MAPPER.get(s)` (then `.cloned()`). -/
def lexemeToToken (s : String) : Option Token :=
  (LEXEME_TO_TOKEN_MAPPER.find? (fun p => p.1 = s)).map Prod.snd

/-- Rust static `TOKEN_TO_LEXEME_MAPPER` (`lazy_static!` HashMap), as an
association list in source insertion order. -/
def TOKEN_TO_LEXEME_MAPPER : List (Token × String) :=
  [ (Token.KeywordToken Keyword.And, "and"),
    (Token.KeywordToken Keyword.Class, "class"),
    (Token.KeywordToken Keyword.If, "if"),
    (Token.KeywordToken Keyword.Else, "else"),
    (Token.KeywordToken Keyword.True, "true"),
    (Token.KeywordToken Keyword.False, "false"),
    (Token.KeywordToken Keyword.Fun, "fun"),
    (Token.KeywordToken Keyword.For, "for"),
    (Token.KeywordToken Keyword.While, "while"),
    (Token.KeywordToken Keyword.Var, "var"),
    (Token.KeywordToken Keyword.Nil, "nil"),
    (Token.KeywordToken Keyword.Or, "or"),
    (Token.KeywordToken Keyword.Print, "print"),
    (Token.KeywordToken Keyword.Return, "return"),
    (Token.KeywordToken Keyword.Super, "super"),
    (Token.KeywordToken Keyword.This, "this"),
    (Token.Single SingleCharacterToken.LeftBrace, "("),
    (Token.Single SingleCharacterToken.RightBrace, ")"),
    (Token.Single SingleCharacterToken.LeftParenthesis, "\x7b"),
    (Token.Single SingleCharacterToken.RightParenthesis, "\x7d"),
    (Token.Single SingleCharacterToken.Plus, "+"),
    (Token.Single SingleCharacterToken.Minus, "-"),
    (Token.Single SingleCharacterToken.Comma, ","),
    (Token.Single SingleCharacterToken.Dot, "."),
    (Token.Single SingleCharacterToken.SemiColon, ";"),
    (Token.Single SingleCharacterToken.Star, "*"),
    (Token.Single SingleCharacterToken.Not, "!"),
    (Token.Single SingleCharacterToken.Slash, "/"),
    (Token.Double DoubleCharacterToken.NotEqual, "!="),
    (Token.Single SingleCharacterToken.EqualSign, "="),
    (Token.Double DoubleCharacterToken.EqualEqualSign, "=="),
    (Token.Single SingleCharacterToken.LessThan, "<"),
    (Token.Double DoubleCharacterToken.LessThanOrEqual, "<="),
    (Token.Single SingleCharacterToken.GreaterThan, ">"),
    (Token.Double DoubleCharacterToken.GreaterThanOrEqual, ">=") ]

/-- Rust `TOKEN_TO_LEXEME_MAPPER.get(t)`. -/
def tokenToLexeme (t : Token) : Option String :=
  (TOKEN_TO_LEXEME_MAPPER.find? (fun p => p.1 = t)).map Prod.snd

/-- The numeric value of a list of ASCII digit characters, most significant first. -/
def digitsToNat (l : List Char) : Nat :=
  l.foldl (fun acc c => acc * 10 + (c.toNat - 48)) 0

/-- The value of a fractional digit string (the part after the decimal point). -/
def fracToRat (l : List Char) : ℚ :=
  (digitsToNat l : ℚ) / ((10 : ℚ) ^ l.length)

/-- Rust `maybe_number.parse::<f32>()` restricted to the strings the number
scanner builds (a digit followed by digits and dots): the parse succeeds iff
the text is `digits` or `digits.digits` (at most one dot, not empty on both
sides), mirroring `f32::from_str` on this alphabet.  The resulting value is
the exact decimal rational; f32 rounding is not modelled. -/
def parseNumber (l : List Char) : Option ℚ :=
  let intPart := l.takeWhile (fun c => c ≠ '.')
  let rest := l.dropWhile (fun c => c ≠ '.')
  if intPart.all Char.isDigit = false then none
  else
    match rest with
    | [] => if intPart.isEmpty then none else some ((digitsToNat intPart : ℚ))
    | _ :: frac =>
      if frac.all Char.isDigit = false then none
      else if intPart.isEmpty && frac.isEmpty then none
      else some ((digitsToNat intPart : ℚ) + fracToRat frac)

/-- Rust `Lexer::one_step_look_ahead`: peek at the next character; if it equals
`expect`, consume it and return `true`, else consume nothing and return
`false`.  The returned list is the iterator's state afterwards. -/
def one_step_look_ahead (expect : Char) (code_characters : List Char) : Bool × List Char :=
  match code_characters with
  | next_character :: rest =>
    if expect = next_character then (true, rest) else (false, next_character :: rest)
  | [] => (false, [])

/-- Rust `Lexer::add_double_or_single_token`.  `none` models the `unwrap`
panics on the table lookups (which never fire for the characters the scan
loop routes here). -/
def add_double_or_single_token (tokens : List Token) (current_character : Char)
    (code : List Char) : Option (List Token × List Char) :=
  let expected_next_character := '='
  match one_step_look_ahead expected_next_character code with
  | (true, code') =>
    (lexemeToToken (String.mk [current_character, expected_next_character])).map
      (fun double_token => (tokens ++ [double_token], code'))
  | (false, code') =>
    (lexemeToToken (String.mk [current_character])).map
      (fun single_token => (tokens ++ [single_token], code'))

/-- Rust `Lexer::consume_comment`.  The `skip_while` iterator is modelled by
`List.dropWhile`; its `next()` is the head of the result and the iterator
then holds the tail.  `none` models the `panic!("we should never hit this
arm")` arm and the `unwrap` on the `/` lookup. -/
def consume_comment (tokens : List Token) (current_character : Char)
    (current_location : Location) (code : List Char) :
    Option (List Token × Location × List Char) :=
  let expected_next_char := '/'
  match one_step_look_ahead expected_next_char code with
  | (true, code') =>
    match code'.dropWhile (fun character => character ≠ '\n') with
    | [] => some (tokens, current_location, [])
    | character :: rest =>
      if character = '\n' then some (tokens, current_location.advance_row, rest)
      else none
  | (false, code') =>
    (lexemeToToken (String.mk [current_character])).map
      (fun single_token => (tokens ++ [single_token], current_location, code'))

/-- Rust `Lexer::add_string_literal`.  The local `maybe_string` buffer is the
explicit accumulator (the scan loop calls this with `[]`, matching
`String::new()`).  When the input runs out before a closing quote, the
Rust `for` loop simply falls off the end: nothing is pushed. -/
def add_string_literal (tokens : List Token) (current_location : Location)
    (maybe_string : List Char) (code : List Char) : List Token × Location × List Char :=
  match code with
  | [] => (tokens, current_location, [])
  | character :: rest =>
    if character = '"' then
      (tokens ++ [Token.LiteralToken (Literal.StringLiteral (String.mk maybe_string))],
       current_location.advance_col, rest)
    else if character = '\n' then
      add_string_literal tokens current_location.advance_row (maybe_string ++ [character]) rest
    else
      add_string_literal tokens current_location.advance_col (maybe_string ++ [character]) rest

/-- Rust `Lexer::add_number_literal`.  The local `maybe_number` buffer is the
explicit accumulator (the scan loop calls this with `[first_digit]`,
matching `String::from(first_digit)`).  When `peek()` returns `None` the
`while` loop exits without pushing any token.  `none` models the `unwrap`
on the float parse. -/
def add_number_literal (tokens : List Token) (maybe_number : List Char)
    (current_location : Location) (code : List Char) :
    Option (List Token × Location × List Char) :=
  match code with
  | [] => some (tokens, current_location, [])
  | character :: rest =>
    if character.isDigit ∨ character = '.' then
      add_number_literal tokens (maybe_number ++ [character]) current_location.advance_col rest
    else
      (parseNumber maybe_number).map
        (fun maybe_number_float =>
          (tokens ++ [Token.LiteralToken (Literal.Number maybe_number_float)],
           current_location, character :: rest))

/-- Rust `Lexer::add_identifier_or_keyword`.  The local `identifier_or_keyword`
buffer is the explicit accumulator (the scan loop calls this with
`[first_character]`, matching `String::from(first_character)`).  When
`peek()` returns `None` the `while` loop exits without pushing any token. -/
def add_identifier_or_keyword (tokens : List Token) (identifier_or_keyword : List Char)
    (current_location : Location) (code : List Char) : List Token × Location × List Char :=
  match code with
  | [] => (tokens, current_location, [])
  | character :: rest =>
    if ('A' ≤ character ∧ character ≤ 'Z') ∨ ('a' ≤ character ∧ character ≤ 'z') ∨
        character = '_' ∨ ('0' ≤ character ∧ character ≤ '9') then
      add_identifier_or_keyword tokens (identifier_or_keyword ++ [character])
        current_location.advance_col rest
    else
      match lexemeToToken (String.mk identifier_or_keyword) with
      | some keyword => (tokens ++ [keyword], current_location, character :: rest)
      | none =>
        (tokens ++ [Token.LiteralToken (Literal.Identifier (String.mk identifier_or_keyword))],
         current_location, character :: rest)

/-- The body of the `match character` dispatch inside `Lexer::lex`, for one
consumed `character`; `code` is the iterator state after `next()` returned
`character`.  Returns the updated `(tokens, errors, current_location, code)`
before the trailing `advance_col`, or `none` for a panic. -/
def lexDispatch (tokens : List Token) (errors : List LexerError)
    (current_location : Location) (character : Char) (code : List Char) :
    Option (List Token × List LexerError × Location × List Char) :=
  if character = ' ' ∨ character = '\r' ∨ character = '\t' then
    some (tokens, errors, current_location, code)
  else if character = '\n' then
    some (tokens, errors, current_location.advance_row, code)
  else if character = '(' ∨ character = ')' ∨ character = '\x7b' ∨ character = '\x7d' ∨
      character = '+' ∨ character = '-' ∨ character = ',' ∨ character = '.' ∨
      character = ';' ∨ character = '*' then
    (lexemeToToken (String.mk [character])).map
      (fun t => (tokens ++ [t], errors, current_location, code))
  else if character = '!' ∨ character = '=' ∨ character = '<' ∨ character = '>' then
    (add_double_or_single_token tokens character code).map
      (fun r => (r.1, errors, current_location, r.2))
  else if character = '/' then
    (consume_comment tokens character current_location code).map
      (fun r => (r.1, errors, r.2.1, r.2.2))
  else if character = '"' then
    let r := add_string_literal tokens current_location [] code
    some (r.1, errors, r.2.1, r.2.2)
  else if '0' ≤ character ∧ character ≤ '9' then
    (add_number_literal tokens [character] current_location code).map
      (fun r => (r.1, errors, r.2.1, r.2.2))
  else if ('A' ≤ character ∧ character ≤ 'Z') ∨ ('a' ≤ character ∧ character ≤ 'z') ∨
      character = '_' then
    let r := add_identifier_or_keyword tokens [character] current_location code
    some (r.1, errors, r.2.1, r.2.2)
  else
    some (tokens,
      errors ++ [LexerError.UnexpectedCharacter character current_location],
      current_location, code)

/-- The `while let Some(character) = code.next()` loop of `Lexer::lex`, plus the
final `tokens.push(Token::Eof)`.  `fuel` bounds the number of iterations;
since every iteration consumes at least the dispatched character,
`fuel = code.length` always suffices (`lexLoop_fuel_irrelevant`). -/
def lexLoop : Nat → List Token → List LexerError → Location → List Char →
    Option (List Token × List LexerError × Location)
  | _, tokens, errors, current_location, [] =>
    some (tokens ++ [Token.Eof], errors, current_location)
  | 0, _, _, _, _ :: _ => none
  | fuel + 1, tokens, errors, current_location, character :: rest =>
    match lexDispatch tokens errors current_location character rest with
    | none => none
    | some (tokens', errors', location', rest') =>
      lexLoop fuel tokens' errors' location'.advance_col rest'

/-- Rust `Lexer::lex` on a fresh `Lexer::new(source_code)` (location starts at
`Location::default()`).  Returns `none` for a panic, otherwise
`Ok(TokenStream(tokens))` when no error was collected and `Err(errors)`
otherwise. -/
def lex (source_code : String) : Option (Except (List LexerError) TokenStream) :=
  (lexLoop source_code.toList.length [] [] Location.start source_code.toList).map
    (fun r => if r.2.1 = [] then Except.ok (TokenStream.mk r.1) else Except.error r.2.1)

/-! ### Helper lemmas about the lexeme table -/

/-- Every token stored in the lexeme table is a fixed-lexeme token, never `Eof`. -/
theorem lexemeToToken_ne_eof {s : String} {t : Token} (h : lexemeToToken s = some t) :
    t ≠ Token.Eof := by
  unfold lexemeToToken at h
  cases hf : LEXEME_TO_TOKEN_MAPPER.find? (fun p => p.1 = s) with
  | none => rw [hf] at h; simp at h
  | some q =>
    rw [hf] at h
    simp only [Option.map_some'] at h
    have hq : q ∈ LEXEME_TO_TOKEN_MAPPER := List.mem_of_find?_eq_some hf
    have hall : ∀ p ∈ LEXEME_TO_TOKEN_MAPPER, p.2 ≠ Token.Eof := by decide
    rw [← Option.some.inj h]
    exact hall q hq

/-- A successful lexeme lookup exposes its table entry. -/
theorem lexemeToToken_mem {s : String} {t : Token} (h : lexemeToToken s = some t) :
    (s, t) ∈ LEXEME_TO_TOKEN_MAPPER := by
  unfold lexemeToToken at h
  cases hf : LEXEME_TO_TOKEN_MAPPER.find? (fun p => p.1 = s) with
  | none => rw [hf] at h; simp at h
  | some q =>
    rw [hf] at h
    simp only [Option.map_some'] at h
    have hq : q ∈ LEXEME_TO_TOKEN_MAPPER := List.mem_of_find?_eq_some hf
    have hp : q.1 = s := by
      have := List.find?_some hf
      simpa using this
    rw [← Option.some.inj h, ← hp]
    exact hq

/-- A successful reverse lookup exposes its table entry. -/
theorem tokenToLexeme_mem {t : Token} {s : String} (h : tokenToLexeme t = some s) :
    (t, s) ∈ TOKEN_TO_LEXEME_MAPPER := by
  unfold tokenToLexeme at h
  cases hf : TOKEN_TO_LEXEME_MAPPER.find? (fun p => p.1 = t) with
  | none => rw [hf] at h; simp at h
  | some q =>
    rw [hf] at h
    simp only [Option.map_some'] at h
    have hq : q ∈ TOKEN_TO_LEXEME_MAPPER := List.mem_of_find?_eq_some hf
    have hp : q.1 = t := by
      have := List.find?_some hf
      simpa using this
    rw [← Option.some.inj h, ← hp]
    exact hq

/-- The head of `dropWhile p`, when present, fails `p`. -/
theorem dropWhile_head_not (p : Char → Bool) :
    ∀ (l : List Char) (c : Char) (rest : List Char), l.dropWhile p = c :: rest → p c = false := by
  intro l
  induction l with
  | nil => intro c rest h; simp at h
  | cons a l ih =>
    intro c rest h
    rw [List.dropWhile_cons] at h
    by_cases hp : p a = true
    · rw [if_pos hp] at h
      exact ih c rest h
    · rw [if_neg hp] at h
      obtain ⟨rfl, -⟩ := List.cons.inj h
      simpa using hp

/-- C10: the `Some(_)` panic arm in `Lexer::consume_comment` ("we should never
hit this arm") is unreachable when the handler is entered on a `/` (as the
scan loop always does): the discard iterator skips characters precisely
while they are not newlines, so its next element is a newline or absent,
and the slash-token lookup always succeeds, so the modelled function never
returns `none`. -/
theorem consume_comment_panic_arm_unreachable :
    ∀ (tokens : List Token) (current_location : Location) (code : List Char),
      (consume_comment tokens '/' current_location code).isSome = true := by
  intro tokens loc code
  rw [← Option.ne_none_iff_isSome]
  unfold consume_comment
  rcases hla : one_step_look_ahead '/' code with ⟨_ | _, code'⟩
  · have hs : lexemeToToken (String.mk ['/']) = some (Token.Single SingleCharacterToken.Slash) := by
      decide
    simp [hla, hs]
  · simp only [hla]
    cases hd : code'.dropWhile (fun character => character ≠ '\n') with
    | nil => simp [hd]
    | cons c rest =>
      have hc : c = '\n' := by
        have := dropWhile_head_not (fun character => character ≠ '\n') code' c rest hd
        simpa using this
      simp [hd, hc]

/-- C9: the two directions of the lexeme table are mutual inverses over the
same key set — every reverse (token→lexeme) entry round-trips through the
forward map and vice versa, and both maps hold the same number of
entries. -/
theorem lexeme_token_tables_mutual_inverse :
    (∀ (t : Token) (l : String), tokenToLexeme t = some l → lexemeToToken l = some t) ∧
    (∀ (l : String) (t : Token), lexemeToToken l = some t → tokenToLexeme t = some l) ∧
    LEXEME_TO_TOKEN_MAPPER.length = TOKEN_TO_LEXEME_MAPPER.length := by
  refine ⟨?_, ?_, by decide⟩
  · intro t l h
    have hall : ∀ p ∈ TOKEN_TO_LEXEME_MAPPER, lexemeToToken p.2 = some p.1 := by decide
    exact hall (t, l) (tokenToLexeme_mem h)
  · intro l t h
    have hall : ∀ p ∈ LEXEME_TO_TOKEN_MAPPER, tokenToLexeme p.2 = some p.1 := by decide
    exact hall (l, t) (lexemeToToken_mem h)

/-- Witness for C9 at a concrete entry: `Class` → `"class"` → `Class`. -/
theorem lexeme_token_tables_mutual_inverse_witness :
    lexemeToToken "class" = some (Token.KeywordToken Keyword.Class) :=
  lexeme_token_tables_mutual_inverse.1 (Token.KeywordToken Keyword.Class) "class" (by decide)

/-- C1: the scan returns `Ok(stream)` iff the accumulated error collection is
empty, else `Err` carrying every collected error (never partial success);
and scanning `"@#$"` yields `Err` with exactly three `UnexpectedCharacter`
errors in left-to-right discovery order. -/
theorem lex_result_ok_iff_no_errors :
    (∀ (s : String) (toks : List Token) (errs : List LexerError) (loc : Location),
        lexLoop s.toList.length [] [] Location.start s.toList = some (toks, errs, loc) →
        (errs = [] → lex s = some (Except.ok (TokenStream.mk toks))) ∧
        (errs ≠ [] → lex s = some (Except.error errs))) ∧
    lex "@#$" = some (Except.error
      [LexerError.UnexpectedCharacter '@' ⟨0, 0⟩,
       LexerError.UnexpectedCharacter '#' ⟨0, 1⟩,
       LexerError.UnexpectedCharacter '$' ⟨0, 2⟩]) := by
  constructor
  · intro s toks errs loc h
    constructor
    · intro he
      unfold lex
      rw [h]
      simp [he]
    · intro he
      unfold lex
      rw [h]
      simp [he]
  · rfl

/-- Witness for C1 at the concrete input `"@"`. -/
theorem lex_result_ok_iff_no_errors_witness :
    lex "@" = some (Except.error [LexerError.UnexpectedCharacter '@' ⟨0, 0⟩]) :=
  (lex_result_ok_iff_no_errors.1 "@" [Token.Eof]
      [LexerError.UnexpectedCharacter '@' ⟨0, 0⟩] ⟨0, 1⟩ (by decide)).2 (by decide)

/-- C3 (code bug): a fixed lexeme scanned in isolation only yields its mapped
token when the lexeme is an operator; a keyword lexeme such as `"class"`
reaches end of input inside `add_identifier_or_keyword`, whose `while let
Some(&c) = code.peek()` loop then exits without pushing any token, so the
accumulated text is dropped and the stream is just `[Eof]`.  With a
trailing space the keyword token appears as the claim expects. -/
theorem lex_keyword_dropped_at_end_of_input :
    lex "class" = some (Except.ok (TokenStream.mk [Token.Eof])) ∧
    lex "class " = some (Except.ok (TokenStream.mk
      [Token.KeywordToken Keyword.Class, Token.Eof])) :=
  ⟨rfl, rfl⟩

/-- C4 (code bug): when input ends, `add_identifier_or_keyword` exits its loop
without emitting the accumulated text, so `"foobar"` in isolation lexes to
`[Eof]` with no identifier token; with a following non-matching character
the single maximal-munch identifier token appears as the claim expects. -/
theorem lex_identifier_dropped_at_end_of_input :
    lex "foobar" = some (Except.ok (TokenStream.mk [Token.Eof])) ∧
    lex "foobar " = some (Except.ok (TokenStream.mk
      [Token.LiteralToken (Literal.Identifier "foobar"), Token.Eof])) :=
  ⟨rfl, rfl⟩

/-- C5 (code bug): when the digit-and-dot run ends at end of input,
`add_number_literal`'s `while let Some(&c) = code.peek()` loop exits without
parsing or pushing anything, so `"123."` in isolation and `"// comment\n1"`
both lex to just `[Eof]` with no number token.  The intended number token
only appears when a non-matching character follows the run, as the last two
conjuncts show (and the comment then still produces no token and no
error). -/
theorem lex_number_dropped_at_end_of_input :
    lex "123." = some (Except.ok (TokenStream.mk [Token.Eof])) ∧
    lex "// comment\n1" = some (Except.ok (TokenStream.mk [Token.Eof])) ∧
    lexLoop 5 [] [] Location.start ['1', '2', '3', '.', ' '] =
      some ([Token.LiteralToken (Literal.Number 123), Token.Eof], [], ⟨0, 5⟩) ∧
    lexLoop 13 [] [] Location.start
        ['/', '/', ' ', 'c', 'o', 'm', 'm', 'e', 'n', 't', '\n', '1', ' '] =
      some ([Token.LiteralToken (Literal.Number 1), Token.Eof], [], ⟨1, 3⟩) := by
  refine ⟨rfl, rfl, ?_, ?_⟩
  · have h0 : fracToRat [] = 0 := by simp [fracToRat, digitsToNat, List.foldl]
    have hn : digitsToNat ['1', '2', '3'] = 123 := by decide
    have h : (digitsToNat ['1', '2', '3'] : ℚ) = 123 := by rw [hn]; norm_num
    have hp : parseNumber ['1', '2', '3', '.'] = some 123 := by
      simp +decide [parseNumber, List.takeWhile, List.dropWhile, h, h0]
    simp +decide [lexLoop, lexDispatch, add_number_literal, hp,
      Location.start, Location.advance_col]
  · have hn : digitsToNat ['1'] = 1 := by decide
    have h : (digitsToNat ['1'] : ℚ) = 1 := by rw [hn]; norm_num
    have hp : parseNumber ['1'] = some 1 := by
      simp +decide [parseNumber, List.takeWhile, List.dropWhile, h]
    simp +decide [lexLoop, lexDispatch, add_number_literal, hp, consume_comment,
      one_step_look_ahead, List.dropWhile,
      Location.start, Location.advance_col, Location.advance_row]

/-- C8 (code bug): `add_double_or_single_token` never advances the column for
the consumed second character (the source marks this with `// TODO: Advance
column by 1`), so after scanning the two-character operator `"!="` the live
cursor column is 1, not 2.  Likewise the unconditional `advance_col` at the
bottom of the scan loop runs after the newline arm's `advance_row`, so
immediately after consuming a newline the live column is 1, not the start
value 0. -/
theorem lex_double_token_column_advance_undercount :
    lexLoop 2 [] [] Location.start "!=".toList =
      some ([Token.Double DoubleCharacterToken.NotEqual, Token.Eof], [], ⟨0, 1⟩) ∧
    lexLoop 1 [] [] Location.start ['\n'] = some ([Token.Eof], [], ⟨1, 1⟩) :=
  ⟨by decide, by decide⟩

/-- When the next character is `=`, the disambiguator consumes it and emits the
looked-up two-character token. -/
theorem add_double_or_single_token_two_char (tokens : List Token) (c : Char)
    (rest : List Char) (dt : Token) (h : lexemeToToken (String.mk [c, '=']) = some dt) :
    add_double_or_single_token tokens c ('=' :: rest) = some (tokens ++ [dt], rest) := by
  unfold add_double_or_single_token one_step_look_ahead
  simp [h]

/-- When the next character is not `=`, the disambiguator consumes nothing and
emits the looked-up one-character token. -/
theorem add_double_or_single_token_one_char (tokens : List Token) (c hd : Char)
    (rest : List Char) (st : Token) (hne : hd ≠ '=')
    (h : lexemeToToken (String.mk [c]) = some st) :
    add_double_or_single_token tokens c (hd :: rest) = some (tokens ++ [st], hd :: rest) := by
  unfold add_double_or_single_token one_step_look_ahead
  have h2 : ¬('=' = hd) := fun e => hne e.symm
  simp [if_neg h2, h]

/-- C6: for each operator start character `!`, `=`, `<`, `>`, peeking `=` emits
the mapped two-character token and consumes the `=`; any other next
character leaves the input untouched and emits the one-character token, so
the peeked character stays available for the next dispatch iteration.
Concretely, `"!="` lexes to one `NotEqual` token, and `!` followed by any
other fixed-lexeme character yields `Not` followed by that character's own
token. -/
theorem operator_disambiguation :
    (∀ (tokens : List Token) (c : Char) (rest : List Char),
        c = '!' ∨ c = '=' ∨ c = '<' ∨ c = '>' →
        (∃ dt, lexemeToToken (String.mk [c, '=']) = some dt ∧
            add_double_or_single_token tokens c ('=' :: rest) = some (tokens ++ [dt], rest)) ∧
        (∀ (hd : Char) (rest' : List Char), hd ≠ '=' →
            ∃ st, lexemeToToken (String.mk [c]) = some st ∧
              add_double_or_single_token tokens c (hd :: rest') =
                some (tokens ++ [st], hd :: rest'))) ∧
    lex "!=" = some (Except.ok (TokenStream.mk
      [Token.Double DoubleCharacterToken.NotEqual, Token.Eof])) ∧
    (∀ p ∈ [('(', Token.Single SingleCharacterToken.LeftBrace),
            (')', Token.Single SingleCharacterToken.RightBrace),
            ('\x7b', Token.Single SingleCharacterToken.LeftParenthesis),
            ('\x7d', Token.Single SingleCharacterToken.RightParenthesis),
            ('+', Token.Single SingleCharacterToken.Plus),
            ('-', Token.Single SingleCharacterToken.Minus),
            (',', Token.Single SingleCharacterToken.Comma),
            ('.', Token.Single SingleCharacterToken.Dot),
            (';', Token.Single SingleCharacterToken.SemiColon),
            ('*', Token.Single SingleCharacterToken.Star),
            ('!', Token.Single SingleCharacterToken.Not),
            ('<', Token.Single SingleCharacterToken.LessThan),
            ('>', Token.Single SingleCharacterToken.GreaterThan),
            ('/', Token.Single SingleCharacterToken.Slash)],
      lexemeToToken (String.mk [p.1]) = some p.2 ∧
        lex (String.mk ['!', p.1]) = some (Except.ok (TokenStream.mk
          [Token.Single SingleCharacterToken.Not, p.2, Token.Eof]))) := by
  refine ⟨?_, rfl, ?_⟩
  · intro tokens c rest hc
    constructor
    · rcases hc with rfl | rfl | rfl | rfl
      · exact ⟨Token.Double DoubleCharacterToken.NotEqual, by decide,
          add_double_or_single_token_two_char _ _ _ _ (by decide)⟩
      · exact ⟨Token.Double DoubleCharacterToken.EqualEqualSign, by decide,
          add_double_or_single_token_two_char _ _ _ _ (by decide)⟩
      · exact ⟨Token.Double DoubleCharacterToken.LessThanOrEqual, by decide,
          add_double_or_single_token_two_char _ _ _ _ (by decide)⟩
      · exact ⟨Token.Double DoubleCharacterToken.GreaterThanOrEqual, by decide,
          add_double_or_single_token_two_char _ _ _ _ (by decide)⟩
    · intro hd rest' hne
      rcases hc with rfl | rfl | rfl | rfl
      · exact ⟨Token.Single SingleCharacterToken.Not, by decide,
          add_double_or_single_token_one_char _ _ _ _ _ hne (by decide)⟩
      · exact ⟨Token.Single SingleCharacterToken.EqualSign, by decide,
          add_double_or_single_token_one_char _ _ _ _ _ hne (by decide)⟩
      · exact ⟨Token.Single SingleCharacterToken.LessThan, by decide,
          add_double_or_single_token_one_char _ _ _ _ _ hne (by decide)⟩
      · exact ⟨Token.Single SingleCharacterToken.GreaterThan, by decide,
          add_double_or_single_token_one_char _ _ _ _ _ hne (by decide)⟩
  · intro p hp
    fin_cases hp <;> exact ⟨by decide, rfl⟩

/-- Witness for C6 at a concrete input: `!` followed by `(` emits `Not` and
leaves the `(` unconsumed. -/
theorem operator_disambiguation_witness :
    ∃ st, lexemeToToken (String.mk ['!']) = some st ∧
      add_double_or_single_token [] '!' ['('] = some ([] ++ [st], ['(']) :=
  ((operator_disambiguation.1 [] '!' [] (Or.inl rfl)).2 '(' [] (by decide))

/-- If a closing quote exists, the string scanner consumes through it and emits
one string token holding the accumulator followed by the characters before
the quote, leaving the input after the quote. -/
theorem add_string_literal_closes (tokens : List Token) :
    ∀ (s : List Char) (acc : List Char) (loc : Location) (rest : List Char), '"' ∉ s →
      ∃ loc', add_string_literal tokens loc acc (s ++ '"' :: rest) =
        (tokens ++ [Token.LiteralToken (Literal.StringLiteral (String.mk (acc ++ s)))],
          loc', rest) := by
  intro s
  induction s with
  | nil =>
    intro acc loc rest _
    exact ⟨loc.advance_col, by simp [add_string_literal]⟩
  | cons c s ih =>
    intro acc loc rest hq
    have hc : c ≠ '"' := fun e => hq (by simp [e])
    have hs : '"' ∉ s := fun m => hq (by simp [m])
    by_cases hn : c = '\n'
    · obtain ⟨loc', hrec⟩ := ih (acc ++ [c]) loc.advance_row rest hs
      refine ⟨loc', ?_⟩
      rw [List.cons_append, add_string_literal, if_neg hc, if_pos hn]
      simpa [List.append_assoc] using hrec
    · obtain ⟨loc', hrec⟩ := ih (acc ++ [c]) loc.advance_col rest hs
      refine ⟨loc', ?_⟩
      rw [List.cons_append, add_string_literal, if_neg hc, if_neg hn]
      simpa [List.append_assoc] using hrec

/-- If the input runs out before a closing quote, the string scanner emits no
token: the consumed characters are silently dropped. -/
theorem add_string_literal_unterminated (tokens : List Token) :
    ∀ (s : List Char) (acc : List Char) (loc : Location), '"' ∉ s →
      ∃ loc', add_string_literal tokens loc acc s = (tokens, loc', []) := by
  intro s
  induction s with
  | nil => intro acc loc _; exact ⟨loc, by simp [add_string_literal]⟩
  | cons c s ih =>
    intro acc loc hq
    have hc : c ≠ '"' := fun e => hq (by simp [e])
    have hs : '"' ∉ s := fun m => hq (by simp [m])
    by_cases hn : c = '\n'
    · obtain ⟨loc', hrec⟩ := ih (acc ++ [c]) loc.advance_row hs
      exact ⟨loc', by rw [add_string_literal, if_neg hc, if_pos hn]; exact hrec⟩
    · obtain ⟨loc', hrec⟩ := ih (acc ++ [c]) loc.advance_col hs
      exact ⟨loc', by rw [add_string_literal, if_neg hc, if_neg hn]; exact hrec⟩

/-- C7: after an opening quote, if a closing quote follows the quote-free text
`s`, the scanner emits exactly one string token holding `s` (closing quote
consumed but excluded, escapes uninterpreted, newlines legal) and leaves
the rest of the input; if input runs out first, no token is emitted and
the consumed characters are dropped; and the `"` dispatch arm never changes
the error collection, so no `LexerError` is recorded either way. -/
theorem string_literal_scanner_behaviour :
    (∀ (tokens : List Token) (loc : Location) (s rest : List Char), '"' ∉ s →
        ∃ loc', add_string_literal tokens loc [] (s ++ '"' :: rest) =
          (tokens ++ [Token.LiteralToken (Literal.StringLiteral (String.mk s))], loc', rest)) ∧
    (∀ (tokens : List Token) (loc : Location) (s : List Char), '"' ∉ s →
        ∃ loc', add_string_literal tokens loc [] s = (tokens, loc', [])) ∧
    (∀ (tokens : List Token) (errors : List LexerError) (loc : Location) (code : List Char)
        (r : List Token × List LexerError × Location × List Char),
        lexDispatch tokens errors loc '"' code = some r → r.2.1 = errors) := by
  refine ⟨?_, ?_, ?_⟩
  · intro tokens loc s rest hq
    simpa using add_string_literal_closes tokens s [] loc rest hq
  · intro tokens loc s hq
    exact add_string_literal_unterminated tokens s [] loc hq
  · intro tokens errors loc code r h
    simp +decide [lexDispatch] at h
    rw [← h]

/-- Witness for C7 at a concrete input: the quote-free text `a\nb` followed by
a closing quote and more input. -/
theorem string_literal_scanner_behaviour_witness :
    ∃ loc', add_string_literal [] Location.start [] (['a', '\n', 'b'] ++ '"' :: ['x']) =
      ([] ++ [Token.LiteralToken (Literal.StringLiteral (String.mk ['a', '\n', 'b']))],
        loc', ['x']) :=
  string_literal_scanner_behaviour.1 [] Location.start ['a', '\n', 'b'] ['x'] (by decide)

/-- The string scanner only ever appends (at most) one string-literal token. -/
theorem add_string_literal_tokens (tokens : List Token) :
    ∀ (code acc : List Char) (loc : Location),
      ∃ d, (add_string_literal tokens loc acc code).1 = tokens ++ d ∧ Token.Eof ∉ d := by
  intro code
  induction code with
  | nil => intro acc loc; exact ⟨[], by simp [add_string_literal], by simp⟩
  | cons c rest ih =>
    intro acc loc
    by_cases hq : c = '"'
    · refine ⟨[Token.LiteralToken (Literal.StringLiteral (String.mk acc))], ?_, by simp⟩
      simp only [add_string_literal, if_pos hq]
    · by_cases hn : c = '\n'
      · obtain ⟨d, hd, hne⟩ := ih (acc ++ [c]) loc.advance_row
        refine ⟨d, ?_, hne⟩
        simp only [add_string_literal, if_neg hq, if_pos hn]
        exact hd
      · obtain ⟨d, hd, hne⟩ := ih (acc ++ [c]) loc.advance_col
        refine ⟨d, ?_, hne⟩
        simp only [add_string_literal, if_neg hq, if_neg hn]
        exact hd

/-- The number scanner only ever appends (at most) one number-literal token. -/
theorem add_number_literal_tokens (tokens : List Token) :
    ∀ (code acc : List Char) (loc : Location) (r : List Token × Location × List Char),
      add_number_literal tokens acc loc code = some r →
      ∃ d, r.1 = tokens ++ d ∧ Token.Eof ∉ d := by
  intro code
  induction code with
  | nil =>
    intro acc loc r h
    simp [add_number_literal] at h
    exact ⟨[], by rw [← h]; simp, by simp⟩
  | cons c rest ih =>
    intro acc loc r h
    by_cases hd : (c.isDigit ∨ c = '.')
    · rw [add_number_literal, if_pos hd] at h
      exact ih (acc ++ [c]) loc.advance_col r h
    · rw [add_number_literal, if_neg hd] at h
      cases hp : parseNumber acc with
      | none => rw [hp] at h; simp at h
      | some q =>
        rw [hp] at h
        simp only [Option.map_some', Option.some.injEq] at h
        exact ⟨[Token.LiteralToken (Literal.Number q)], by rw [← h], by simp⟩

/-- The identifier/keyword scanner only ever appends (at most) one token, and
never the end-of-stream marker. -/
theorem add_identifier_or_keyword_tokens (tokens : List Token) :
    ∀ (code acc : List Char) (loc : Location),
      ∃ d, (add_identifier_or_keyword tokens acc loc code).1 = tokens ++ d ∧ Token.Eof ∉ d := by
  intro code
  induction code with
  | nil => intro acc loc; exact ⟨[], by simp [add_identifier_or_keyword], by simp⟩
  | cons c rest ih =>
    intro acc loc
    by_cases hc : (('A' ≤ c ∧ c ≤ 'Z') ∨ ('a' ≤ c ∧ c ≤ 'z') ∨ c = '_' ∨ ('0' ≤ c ∧ c ≤ '9'))
    · obtain ⟨d, hd, hne⟩ := ih (acc ++ [c]) loc.advance_col
      refine ⟨d, ?_, hne⟩
      simp only [add_identifier_or_keyword, if_pos hc]
      exact hd
    · cases hk : lexemeToToken (String.mk acc) with
      | some keyword =>
        refine ⟨[keyword], ?_, by simpa using Ne.symm (lexemeToToken_ne_eof hk)⟩
        simp only [add_identifier_or_keyword, if_neg hc, hk]
      | none =>
        refine ⟨[Token.LiteralToken (Literal.Identifier (String.mk acc))], ?_, by simp⟩
        simp only [add_identifier_or_keyword, if_neg hc, hk]

/-- The operator disambiguator appends exactly one token, never the
end-of-stream marker. -/
theorem add_double_or_single_token_tokens (tokens : List Token) (c : Char)
    (code : List Char) (r : List Token × List Char)
    (h : add_double_or_single_token tokens c code = some r) :
    ∃ t, r.1 = tokens ++ [t] ∧ t ≠ Token.Eof := by
  simp only [add_double_or_single_token] at h
  split at h <;>
  · obtain ⟨t, hx, ht⟩ := Option.map_eq_some'.mp h
    subst ht
    exact ⟨t, rfl, lexemeToToken_ne_eof hx⟩

/-- The comment handler appends at most one token (a slash), never the
end-of-stream marker. -/
theorem consume_comment_tokens (tokens : List Token) (c : Char)
    (loc : Location) (code : List Char) (r : List Token × Location × List Char)
    (h : consume_comment tokens c loc code = some r) :
    ∃ d, r.1 = tokens ++ d ∧ Token.Eof ∉ d := by
  simp only [consume_comment] at h
  split at h
  · split at h
    · obtain rfl : (tokens, loc, ([] : List Char)) = r := Option.some.inj h
      exact ⟨[], by simp, by simp⟩
    · split at h
      · obtain rfl := Option.some.inj h
        exact ⟨[], by simp, by simp⟩
      · exact absurd h (by simp)
  · obtain ⟨t, hx, ht⟩ := Option.map_eq_some'.mp h
    subst ht
    exact ⟨[t], rfl, by simpa using Ne.symm (lexemeToToken_ne_eof hx)⟩

/-- One dispatch step only appends non-`Eof` tokens to the token buffer. -/
theorem lexDispatch_tokens (tokens : List Token) (errors : List LexerError)
    (loc : Location) (character : Char) (code : List Char)
    (r : List Token × List LexerError × Location × List Char)
    (h : lexDispatch tokens errors loc character code = some r) :
    ∃ d, r.1 = tokens ++ d ∧ Token.Eof ∉ d := by
  simp only [lexDispatch] at h
  split at h
  · obtain rfl := Option.some.inj h
    exact ⟨[], by simp, by simp⟩
  · split at h
    · obtain rfl := Option.some.inj h
      exact ⟨[], by simp, by simp⟩
    · split at h
      · obtain ⟨t, hx, ht⟩ := Option.map_eq_some'.mp h
        subst ht
        exact ⟨[t], rfl, by simpa using Ne.symm (lexemeToToken_ne_eof hx)⟩
      · split at h
        · obtain ⟨q, hq, hr⟩ := Option.map_eq_some'.mp h
          subst hr
          obtain ⟨t, ht1, ht2⟩ := add_double_or_single_token_tokens tokens character code q hq
          exact ⟨[t], by simpa using ht1, by simpa using Ne.symm ht2⟩
        · split at h
          · obtain ⟨q, hq, hr⟩ := Option.map_eq_some'.mp h
            subst hr
            obtain ⟨d, hd1, hd2⟩ := consume_comment_tokens tokens character loc code q hq
            exact ⟨d, by simpa using hd1, hd2⟩
          · split at h
            · obtain rfl := Option.some.inj h
              obtain ⟨d, hd1, hd2⟩ := add_string_literal_tokens tokens code [] loc
              exact ⟨d, by simpa using hd1, hd2⟩
            · split at h
              · obtain ⟨q, hq, hr⟩ := Option.map_eq_some'.mp h
                subst hr
                obtain ⟨d, hd1, hd2⟩ := add_number_literal_tokens tokens code [character] loc q hq
                exact ⟨d, by simpa using hd1, hd2⟩
              · split at h
                · obtain rfl := Option.some.inj h
                  obtain ⟨d, hd1, hd2⟩ := add_identifier_or_keyword_tokens tokens code [character] loc
                  exact ⟨d, by simpa using hd1, hd2⟩
                · obtain rfl := Option.some.inj h
                  exact ⟨[], by simp, by simp⟩

/-- Every successful run of the scan loop produces the tokens accumulated so
far, then only non-`Eof` tokens, then the single final `Eof` pushed after
the loop. -/
theorem lexLoop_tokens_structure :
    ∀ (fuel : Nat) (tokens : List Token) (errors : List LexerError) (loc : Location)
      (code : List Char) (toks : List Token) (errs : List LexerError) (loc2 : Location),
      lexLoop fuel tokens errors loc code = some (toks, errs, loc2) →
      ∃ d, toks = tokens ++ d ++ [Token.Eof] ∧ Token.Eof ∉ d := by
  intro fuel
  induction fuel with
  | zero =>
    intro tokens errors loc code toks errs loc2 h
    cases code with
    | nil =>
      simp only [lexLoop, Option.some.injEq, Prod.mk.injEq] at h
      exact ⟨[], by simp [← h.1], by simp⟩
    | cons c rest => simp [lexLoop] at h
  | succ fuel ih =>
    intro tokens errors loc code toks errs loc2 h
    cases code with
    | nil =>
      simp only [lexLoop, Option.some.injEq, Prod.mk.injEq] at h
      exact ⟨[], by simp [← h.1], by simp⟩
    | cons c rest =>
      simp only [lexLoop] at h
      split at h
      · exact absurd h (by simp)
      · rename_i tokens' errors' location' rest' heq
        obtain ⟨d1, hd1, hne1⟩ := lexDispatch_tokens tokens errors loc c rest _ heq
        have ht' : tokens' = tokens ++ d1 := by simpa using hd1
        obtain ⟨d2, hd2, hne2⟩ := ih tokens' errors' location'.advance_col rest' toks errs loc2 h
        refine ⟨d1 ++ d2, ?_, by simp [hne1, hne2]⟩
        rw [hd2, ht']
        simp [List.append_assoc]

/-- C2: the token stream of every successful lex is non-empty, its last element
is the end-of-stream marker `Token.Eof`, and that is the only occurrence of
`Token.Eof` in the stream. -/
theorem lex_stream_single_eof :
    ∀ (s : String) (ts : TokenStream), lex s = some (Except.ok ts) →
      ts.tokens ≠ [] ∧ ts.tokens.getLast? = some Token.Eof ∧
        ts.tokens.count Token.Eof = 1 := by
  intro s ts h
  unfold lex at h
  cases hl : lexLoop s.toList.length [] [] Location.start s.toList with
  | none => rw [hl] at h; simp at h
  | some r =>
    obtain ⟨toks, errs, loc2⟩ := r
    rw [hl] at h
    simp only [Option.map_some', Option.some.injEq] at h
    obtain ⟨d, hd, hne⟩ := lexLoop_tokens_structure _ _ _ _ _ _ _ _ hl
    split at h
    · obtain rfl : TokenStream.mk toks = ts := Except.ok.inj h
      simp only [hd]
      refine ⟨by simp, ?_, ?_⟩
      · simp [List.getLast?_concat]
      · rw [List.nil_append, List.count_append, List.count_eq_zero.mpr hne]
        simp [List.count_cons]
    · exact absurd h (by simp)

/-- Witness for C2 at the concrete input `"+"`. -/
theorem lex_stream_single_eof_witness :
    ([Token.Single SingleCharacterToken.Plus, Token.Eof] : List Token) ≠ [] ∧
    ([Token.Single SingleCharacterToken.Plus, Token.Eof] : List Token).getLast? =
      some Token.Eof ∧
    ([Token.Single SingleCharacterToken.Plus, Token.Eof] : List Token).count Token.Eof = 1 :=
  lex_stream_single_eof "+"
    (TokenStream.mk [Token.Single SingleCharacterToken.Plus, Token.Eof]) rfl

/-- The lookahead consumes at most one character. -/
theorem one_step_look_ahead_length (expect : Char) (code_characters : List Char) :
    (one_step_look_ahead expect code_characters).2.length ≤ code_characters.length := by
  unfold one_step_look_ahead
  cases code_characters with
  | nil => simp
  | cons c rest =>
    by_cases h : expect = c
    · simp [if_pos h]
    · simp [if_neg h]

/-- The operator disambiguator never un-consumes input. -/
theorem add_double_or_single_token_length (tokens : List Token) (c : Char)
    (code : List Char) (r : List Token × List Char)
    (h : add_double_or_single_token tokens c code = some r) :
    r.2.length ≤ code.length := by
  simp only [add_double_or_single_token] at h
  split at h <;> rename_i hla <;>
  · obtain ⟨t, _, ht⟩ := Option.map_eq_some'.mp h
    subst ht
    have := one_step_look_ahead_length '=' code
    rw [hla] at this
    exact this

/-- The comment handler never un-consumes input. -/
theorem consume_comment_length (tokens : List Token) (c : Char) (loc : Location)
    (code : List Char) (r : List Token × Location × List Char)
    (h : consume_comment tokens c loc code = some r) :
    r.2.2.length ≤ code.length := by
  have hla' := one_step_look_ahead_length '/' code
  simp only [consume_comment] at h
  split at h <;> rename_i code' hla <;> rw [hla] at hla'
  · have hdw : (code'.dropWhile (fun character => character ≠ '\n')).length ≤ code'.length :=
      (List.dropWhile_suffix _).length_le
    split at h <;> rename_i harm
    · obtain rfl := Option.some.inj h
      simp
    · split at h
      · obtain rfl := Option.some.inj h
        have : (List.dropWhile (fun character => character ≠ '\n') code').length ≤ code'.length :=
          hdw
        rw [harm] at this
        simp only [List.length_cons] at this
        exact le_trans (le_trans (Nat.le_succ _) this) hla'
      · exact absurd h (by simp)
  · obtain ⟨t, _, ht⟩ := Option.map_eq_some'.mp h
    subst ht
    exact hla'

/-- The string scanner never un-consumes input. -/
theorem add_string_literal_length (tokens : List Token) :
    ∀ (code acc : List Char) (loc : Location),
      (add_string_literal tokens loc acc code).2.2.length ≤ code.length := by
  intro code
  induction code with
  | nil => intro acc loc; simp [add_string_literal]
  | cons c rest ih =>
    intro acc loc
    by_cases hq : c = '"'
    · simp only [add_string_literal, if_pos hq, List.length_cons]
      exact Nat.le_succ _
    · by_cases hn : c = '\n'
      · simp only [add_string_literal, if_neg hq, if_pos hn, List.length_cons]
        exact le_trans (ih (acc ++ [c]) loc.advance_row) (Nat.le_succ _)
      · simp only [add_string_literal, if_neg hq, if_neg hn, List.length_cons]
        exact le_trans (ih (acc ++ [c]) loc.advance_col) (Nat.le_succ _)

/-- The number scanner never un-consumes input. -/
theorem add_number_literal_length (tokens : List Token) :
    ∀ (code acc : List Char) (loc : Location) (r : List Token × Location × List Char),
      add_number_literal tokens acc loc code = some r → r.2.2.length ≤ code.length := by
  intro code
  induction code with
  | nil =>
    intro acc loc r h
    simp only [add_number_literal, Option.some.injEq] at h
    rw [← h]
  | cons c rest ih =>
    intro acc loc r h
    by_cases hd : (c.isDigit ∨ c = '.')
    · rw [add_number_literal, if_pos hd] at h
      exact le_trans (ih (acc ++ [c]) loc.advance_col r h) (Nat.le_succ _)
    · rw [add_number_literal, if_neg hd] at h
      obtain ⟨q, _, ht⟩ := Option.map_eq_some'.mp h
      subst ht
      simp

/-- The identifier/keyword scanner never un-consumes input. -/
theorem add_identifier_or_keyword_length (tokens : List Token) :
    ∀ (code acc : List Char) (loc : Location),
      (add_identifier_or_keyword tokens acc loc code).2.2.length ≤ code.length := by
  intro code
  induction code with
  | nil => intro acc loc; simp [add_identifier_or_keyword]
  | cons c rest ih =>
    intro acc loc
    by_cases hc : (('A' ≤ c ∧ c ≤ 'Z') ∨ ('a' ≤ c ∧ c ≤ 'z') ∨ c = '_' ∨ ('0' ≤ c ∧ c ≤ '9'))
    · simp only [add_identifier_or_keyword, if_pos hc, List.length_cons]
      exact le_trans (ih (acc ++ [c]) loc.advance_col) (Nat.le_succ _)
    · simp only [add_identifier_or_keyword, if_neg hc, List.length_cons]
      cases hk : lexemeToToken (String.mk acc) <;> simp [hk]

/-- One dispatch step never un-consumes input. -/
theorem lexDispatch_length (tokens : List Token) (errors : List LexerError)
    (loc : Location) (character : Char) (code : List Char)
    (r : List Token × List LexerError × Location × List Char)
    (h : lexDispatch tokens errors loc character code = some r) :
    r.2.2.2.length ≤ code.length := by
  simp only [lexDispatch] at h
  split at h
  · obtain rfl := Option.some.inj h
    exact le_refl _
  · split at h
    · obtain rfl := Option.some.inj h
      exact le_refl _
    · split at h
      · obtain ⟨t, _, ht⟩ := Option.map_eq_some'.mp h
        subst ht
        exact le_refl _
      · split at h
        · obtain ⟨q, hq, hr⟩ := Option.map_eq_some'.mp h
          subst hr
          exact add_double_or_single_token_length tokens character code q hq
        · split at h
          · obtain ⟨q, hq, hr⟩ := Option.map_eq_some'.mp h
            subst hr
            exact consume_comment_length tokens character loc code q hq
          · split at h
            · obtain rfl := Option.some.inj h
              exact add_string_literal_length tokens code [] loc
            · split at h
              · obtain ⟨q, hq, hr⟩ := Option.map_eq_some'.mp h
                subst hr
                exact add_number_literal_length tokens code [character] loc q hq
              · split at h
                · obtain rfl := Option.some.inj h
                  exact add_identifier_or_keyword_length tokens code [character] loc
                · obtain rfl := Option.some.inj h
                  exact le_refl _

/-- `lexLoop`'s fuel is irrelevant as soon as it covers the number of remaining
characters (every loop iteration consumes at least the dispatched
character), so `lex`'s choice `fuel = code.length` models the unbounded
Rust `while let` loop faithfully. -/
theorem lexLoop_fuel_irrelevant :
    ∀ (fuel : Nat) (tokens : List Token) (errors : List LexerError) (loc : Location)
      (code : List Char), code.length ≤ fuel →
      lexLoop fuel tokens errors loc code = lexLoop code.length tokens errors loc code := by
  intro fuel
  induction fuel using Nat.strong_induction_on with
  | _ fuel ih =>
    intro tokens errors loc code hle
    cases code with
    | nil => cases fuel <;> simp [lexLoop]
    | cons c rest =>
      cases fuel with
      | zero => simp at hle
      | succ fuel =>
        have hrest : rest.length ≤ fuel := by simpa using hle
        simp only [lexLoop, List.length_cons]
        cases hd : lexDispatch tokens errors loc c rest with
        | none => rfl
        | some q =>
          obtain ⟨q1, q2, q3, q4⟩ := q
          have h4 : q4.length ≤ rest.length :=
            lexDispatch_length tokens errors loc c rest _ hd
          calc lexLoop fuel q1 q2 q3.advance_col q4
              = lexLoop q4.length q1 q2 q3.advance_col q4 :=
                ih fuel (Nat.lt_succ_self _) q1 q2 q3.advance_col q4 (le_trans h4 hrest)
            _ = lexLoop rest.length q1 q2 q3.advance_col q4 :=
                (ih rest.length (Nat.lt_succ_of_le hrest) q1 q2 q3.advance_col q4 h4).symm
